import Mathlib

/-!
Verification of the nmstate NIC-pinning, config-apply scheduling and
route-merge components.

The development shallowly embeds three source files:

* `rust/src/cli/service.rs` — `ncl_service`, `get_config_files`,
  `relocate_file`, `ncl_pin_nic_names`, `pin_iface_name`,
  `pin_iface_name_via_systemd_link`;
* `rust/src/cli/persist_nic.rs` — `run_persist_immediately`,
  `persist_iface_name`, `persist_iface_name_via_systemd_link` (twins of the
  `service.rs` functions, parameterised by a root path);
* `rust/src/lib/nm/route.rs` — `store_route_config`.

Filesystem state is made explicit (a finite map from path strings to file
contents plus a set of directories); collaborator calls (snapshot retrieval,
the apply engine, `read_dir`, deserialization of the pin file) are passed in
as explicit values or oracles.  Filesystem primitives themselves
(write/rename/create-dir) are modelled as succeeding; logging and the fixed
2-second settling delay are not modelled.
-/

set_option linter.unusedVariables false

/-! ## Interface snapshot model

`nmstate::NetworkState` holds a list of interfaces; the code only
distinguishes Ethernet from everything else (`InterfaceType::Ethernet`). -/

inductive InterfaceType where
  | ethernet
  | other
deriving DecidableEq, Repr

/-- One interface record of a snapshot.  `name`, `iface_type` and
`mac_address` are exactly the fields read by the cli code
(`iface.name()`, `iface.iface_type()`, `iface.base_iface().mac_address`).
`ipv4_static` / `ipv6_static` are modelled from the spec: the spec's
`ipv4_config`/`ipv6_config` optional records carry an `is_static` flag
(the nmstate library IP-configuration types are not part of the sources;
the cli code under inspection never reads them). -/
structure Iface where
  name : String
  iface_type : InterfaceType
  mac_address : Option String
  ipv4_static : Option Bool
  ipv6_static : Option Bool
deriving DecidableEq, Repr

/-- The interfaces acted on by the immediate-save pinning loop
(`persist_nic.rs` lines 54-62 / `service.rs` lines 142-150): the loop
filters on `iface_type() == InterfaceType::Ethernet` and skips any
interface whose `mac_address` is `None`; every remaining interface is
logged as "Would pin"/"Pinning" and, in execute mode, written. -/
def pinCandidates (ifaces : List Iface) : List Iface :=
  ifaces.filter
    (fun i => i.iface_type == InterfaceType.ethernet && i.mac_address.isSome)

/-- Modelled from the spec: the static-address filter the spec claims is
shared by the inspect and execute paths — "an interface is only a pinning
candidate if it carries *static* (non-automatic) address configuration on
IPv4 or IPv6". -/
def hasStaticAddr (i : Iface) : Bool :=
  i.ipv4_static == some true || i.ipv6_static == some true

/-- Modelled from the spec: `Interfaces::get_iface` of the nmstate library
(not part of the sources) — look up an interface carrying the given name
and the given type ("an interface with the *same name and type*"). -/
def get_iface (ifaces : List Iface) (name : String) (ty : InterfaceType) :
    Option Iface :=
  ifaces.find? (fun i => i.name == name && i.iface_type == ty)

/-- The drift-resolution pass of `pin_iface_name` (`service.rs` lines
187-222) / `persist_iface_name` (`persist_nic.rs` lines 101-140): for each
Ethernet interface of the current snapshot with a known MAC, skip it when
the pin snapshot already has an interface of the same name and type;
otherwise emit one `(mac, desired_name)` rebinding instruction per Ethernet
interface of the pin snapshot whose MAC matches and whose name differs,
binding the MAC to the *pin snapshot's* name.  The returned list is the
sequence of `pin_iface_name_via_systemd_link` /
`persist_iface_name_via_systemd_link` calls made by the loop, in order. -/
def resolveDrift (pin cur : List Iface) : List (String × String) :=
  (cur.filter (fun i => i.iface_type == InterfaceType.ethernet)).flatMap
    (fun curIface =>
      match curIface.mac_address with
      | none => []
      | some curMac =>
        if (get_iface pin curIface.name curIface.iface_type).isSome then []
        else
          (pin.filter
              (fun i => i.iface_type == InterfaceType.ethernet)).filterMap
            (fun pinIface =>
              if pinIface.mac_address == some curMac
                  && pinIface.name != curIface.name then
                some (curMac, pinIface.name)
              else none))

/-- An Ethernet interface with a MAC address whose IPv4 and IPv6
configurations are both automatic (non-static). -/
def autoDhcpIface : Iface :=
  { name := "eth0"
    iface_type := InterfaceType.ethernet
    mac_address := some "AA:BB"
    ipv4_static := some false
    ipv6_static := some false }

/-- C1 (counterexample): an Ethernet interface with a known MAC whose IPv4
and IPv6 configurations are both automatic is nevertheless a pinning
candidate of the immediate-save pass — the code filters only on interface
type and MAC presence and never consults address configuration, contrary
to the claimed static-address filter. -/
theorem C1_counterexample :
    autoDhcpIface ∈ pinCandidates [autoDhcpIface]
      ∧ hasStaticAddr autoDhcpIface = false := by
  decide

/-- C1 (amended): in the pinning pass over the current snapshot (both the
execute and dry-run paths of the immediate Save pass), an interface is a
pinning candidate exactly when it is of Ethernet type and carries a known
MAC address; its IPv4/IPv6 address configuration (static or automatic) is
not consulted. -/
theorem C1_candidates_ethernet_mac (ifaces : List Iface) (i : Iface) :
    i ∈ pinCandidates ifaces
      ↔ i ∈ ifaces ∧ i.iface_type = InterfaceType.ethernet
          ∧ i.mac_address.isSome = true := by
  simp [pinCandidates, List.mem_filter, Bool.and_eq_true, beq_iff_eq]

/-- C1 (witness): the amended characterisation evaluated on the concrete
automatic-addressing interface. -/
theorem C1_candidates_ethernet_mac_witness :
    autoDhcpIface ∈ pinCandidates [autoDhcpIface] :=
  (C1_candidates_ethernet_mac [autoDhcpIface] autoDhcpIface).mpr
    ⟨by decide, by decide, by decide⟩

/-- C2: for a pin snapshot holding exactly the Ethernet record
`eth0 ↦ AA:BB` and a current snapshot holding exactly the Ethernet record
`eth1 ↦ AA:BB` (arbitrary address configuration on both), the
drift-resolution pass emits exactly one rebinding instruction, binding MAC
`AA:BB` to the pin snapshot's name `eth0`. -/
theorem C2_mac_drift (p4 p6 c4 c6 : Option Bool) :
    resolveDrift
      [{ name := "eth0", iface_type := InterfaceType.ethernet,
         mac_address := some "AA:BB", ipv4_static := p4, ipv6_static := p6 }]
      [{ name := "eth1", iface_type := InterfaceType.ethernet,
         mac_address := some "AA:BB", ipv4_static := c4, ipv6_static := c6 }]
      = [("AA:BB", "eth0")] := rfl

/-! ## Filesystem model for the NIC-name persistence pass

`persist_nic.rs` (and its twin in `service.rs`) manipulates the filesystem
under `<root>/etc/systemd/network`.  The filesystem is a finite map from
path strings to file contents together with a set of existing directories.
Path joining is modelled as string concatenation with `/`; all filesystem
primitives are modelled as succeeding. -/

structure Fs where
  files : List (String × String)
  dirs : List String
deriving DecidableEq, Repr

def Fs.fileExists (fs : Fs) (p : String) : Bool :=
  fs.files.any (fun e => e.1 == p)

def Fs.writeFile (fs : Fs) (p c : String) : Fs :=
  { fs with files := (p, c) :: fs.files.filter (fun e => e.1 != p) }

def Fs.dirExists (fs : Fs) (d : String) : Bool :=
  fs.dirs.any (fun x => x == d)

def Fs.createDir (fs : Fs) (d : String) : Fs :=
  { fs with dirs := d :: fs.dirs }

/-- `SYSTEMD_NETWORK_LINK_FOLDER` joined onto the root
(`Path::new(root).join("etc/systemd/network")`). -/
def linkDir (root : String) : String :=
  root ++ "/etc/systemd/network"

/-- Path of the generated binding file for a desired interface name:
`<link dir>/98-nmstate-<name>.link`. -/
def linkFilePath (root name : String) : String :=
  linkDir root ++ "/98-nmstate-" ++ name ++ ".link"

/-- Path of the one-shot processed-stamp file
(`.nmstate-persist.stamp` inside the link folder). -/
def stampPath (root : String) : String :=
  linkDir root ++ "/.nmstate-persist.stamp"

/-- Content written into a fresh binding file: generated-by comment, a
match section keyed by MAC and a link section assigning the name. -/
def linkFileContent (mac name : String) : String :=
  "# Generated by nmstate\n[Match]\nMACAddress=" ++ mac
    ++ "\n\n[Link]\nName=" ++ name ++ "\n"

/-- `persist_iface_name_via_systemd_link` (`persist_nic.rs` lines 146-178;
`pin_iface_name_via_systemd_link` in `service.rs` is the same with the root
fixed to `/`): if the binding file for `name` already exists, do nothing
and report `false`; otherwise create the link directory if absent, write
the binding file and report `true`. -/
def persist_iface_name_via_systemd_link (root mac name : String) (fs : Fs) :
    Fs × Bool :=
  let fp := linkFilePath root name
  if fs.fileExists fp then (fs, false)
  else
    let fs1 := if fs.dirExists (linkDir root) then fs
               else fs.createDir (linkDir root)
    (fs1.writeFile fp (linkFileContent mac name), true)

/-- `run_persist_immediately` (`persist_nic.rs` lines 36-84;
`ncl_pin_nic_names` in `service.rs` is the same with the root fixed to
`/`): short-circuit if the stamp file exists; otherwise retrieve the
current snapshot (`retrieved` stands for the collaborator call, which can
fail), loop over Ethernet interfaces with a known MAC OR-ing the writer's
results into `changed`, and — in execute mode only — write the stamp file
unconditionally at the end.  Returns the final filesystem and the
`changed` flag (the code logs "No changes." when the flag is false). -/
def run_persist_immediately (root : String)
    (retrieved : Except String (List Iface)) (dry_run : Bool) (fs : Fs) :
    Except String (Fs × Bool) :=
  if fs.fileExists (stampPath root) then Except.ok (fs, false)
  else
    match retrieved with
    | Except.error e => Except.error e
    | Except.ok ifaces =>
      let r := ifaces.foldl
        (fun (acc : Fs × Bool) i =>
          if i.iface_type == InterfaceType.ethernet then
            match i.mac_address with
            | some mac =>
              if dry_run then acc
              else
                let w := persist_iface_name_via_systemd_link root mac i.name
                  acc.1
                (w.1, acc.2 || w.2)
            | none => acc
          else acc)
        (fs, false)
      let fs2 := if dry_run then r.1 else r.1.writeFile (stampPath root) ""
      Except.ok (fs2, r.2)

theorem fileExists_writeFile_self (fs : Fs) (p c : String) :
    (fs.writeFile p c).fileExists p = true := by
  simp [Fs.writeFile, Fs.fileExists]

/-- C3: if an execute-mode run of the immediate Save pass completes on some
filesystem, then a second execute-mode run on the resulting filesystem —
with *any* snapshot-retrieval outcome, successful or not — changes nothing
and reports zero changes: the first run wrote the processed stamp
unconditionally and the second run short-circuits on it before consulting
the snapshot. -/
theorem C3_save_idempotent (root : String) (ifaces : List Iface)
    (fs fs1 : Fs) (c : Bool)
    (h : run_persist_immediately root (Except.ok ifaces) false fs
          = Except.ok (fs1, c))
    (r2 : Except String (List Iface)) :
    run_persist_immediately root r2 false fs1 = Except.ok (fs1, false) := by
  have hstamp : fs1.fileExists (stampPath root) = true := by
    by_cases hs : fs.fileExists (stampPath root) = true
    · simp only [run_persist_immediately, hs, if_true, Except.ok.injEq,
        Prod.mk.injEq] at h
      rw [← h.1]
      exact hs
    · simp only [run_persist_immediately, hs, if_false, Bool.false_eq_true,
        if_neg, Except.ok.injEq, Prod.mk.injEq] at h
      rw [← h.1]
      exact fileExists_writeFile_self _ _ _
  simp [run_persist_immediately, hstamp]

/-- The filesystem produced by a first execute-mode Save run on an empty
filesystem with an empty snapshot: just the stamp file. -/
def fsAfterFirstRun : Fs :=
  { files := [("/r/etc/systemd/network/.nmstate-persist.stamp", "")]
    dirs := [] }

/-- C3 (witness): the idempotence theorem applied to a concrete first run
(root `/r`, empty snapshot, empty filesystem), with the second run handed a
failing snapshot retrieval. -/
theorem C3_save_idempotent_witness :
    run_persist_immediately "/r" (Except.ok []) false ⟨[], []⟩
        = Except.ok (fsAfterFirstRun, false)
      ∧ run_persist_immediately "/r" (Except.error "no snapshot") false
          fsAfterFirstRun = Except.ok (fsAfterFirstRun, false) :=
  ⟨rfl,
   C3_save_idempotent "/r" [] ⟨[], []⟩ fsAfterFirstRun false rfl
     (Except.error "no snapshot")⟩

/-- C4: if the binding file for a desired name already exists, calling the
binding writer again — with any MAC — leaves the filesystem (hence the
file's content) entirely unchanged and returns `false`; and the writer
returns `true` exactly when the file was absent. -/
theorem C4_no_overwrite (root mac name : String) (fs : Fs) :
    (fs.fileExists (linkFilePath root name) = true →
        persist_iface_name_via_systemd_link root mac name fs = (fs, false))
      ∧ ((persist_iface_name_via_systemd_link root mac name fs).2 = true
          ↔ fs.fileExists (linkFilePath root name) = false) := by
  constructor
  · intro h
    simp [persist_iface_name_via_systemd_link, h]
  · by_cases h : fs.fileExists (linkFilePath root name) = true
    · simp [persist_iface_name_via_systemd_link, h]
    · simp only [Bool.not_eq_true] at h
      simp [persist_iface_name_via_systemd_link, h]

/-- A filesystem already holding a binding file for `eth0` with some
original content. -/
def fsWithEth0Link : Fs :=
  { files := [(linkFilePath "/r" "eth0", "original content")]
    dirs := ["/r/etc/systemd/network"] }

/-- C4 (witness): the no-overwrite theorem applied to a concrete
filesystem that already holds the `eth0` binding file, calling the writer
with a different MAC. -/
theorem C4_no_overwrite_witness :
    fsWithEth0Link.fileExists (linkFilePath "/r" "eth0") = true
      ∧ persist_iface_name_via_systemd_link "/r" "CC:DD" "eth0"
          fsWithEth0Link = (fsWithEth0Link, false) :=
  ⟨by decide,
   (C4_no_overwrite "/r" "CC:DD" "eth0" fsWithEth0Link).1 (by decide)⟩

/-! ## Config-apply scheduler model (`ncl_service`)

Config-file paths are modelled structurally: a directory part plus a file
name split into stem and extension (mirroring `Path::extension` /
`Path::with_extension`, which operate on the portion of the file name
after the last dot).  `Path::join` replaces the whole path when the joined
path is absolute (begins with `/`) and appends otherwise.  Sorting uses a
byte-lexicographic order on the rendered path, the order `sort_unstable`
applies to `PathBuf`s sharing one directory. -/

structure CfgName where
  stem : String
  ext : Option String
deriving DecidableEq, Repr

structure CfgPath where
  dir : String
  name : CfgName
deriving DecidableEq, Repr

def CfgName.render (n : CfgName) : String :=
  n.stem ++ (match n.ext with | some e => "." ++ e | none => "")

def CfgPath.render (p : CfgPath) : String :=
  p.dir ++ "/" ++ p.name.render

/-- Lexicographic comparison of character lists by code point. -/
def charsLe : List Char → List Char → Bool
  | [], _ => true
  | _ :: _, [] => false
  | a :: as, b :: bs =>
    if a.toNat < b.toNat then true
    else if b.toNat < a.toNat then false
    else charsLe as bs

def strLe (a b : String) : Bool :=
  charsLe a.data b.data

def pathLe (p q : CfgPath) : Prop :=
  strLe p.render q.render = true

instance : DecidableRel pathLe := fun p q =>
  inferInstanceAs (Decidable (strLe p.render q.render = true))

theorem charsLe_total (a b : List Char) :
    charsLe a b = true ∨ charsLe b a = true := by
  induction a generalizing b with
  | nil => left; rfl
  | cons x xs ih =>
    cases b with
    | nil => right; rfl
    | cons y ys =>
      simp only [charsLe]
      rcases Nat.lt_trichotomy x.toNat y.toNat with h | h | h
      · left; simp [h]
      · have h1 : ¬ x.toNat < y.toNat := by omega
        have h2 : ¬ y.toNat < x.toNat := by omega
        rcases ih ys with hc | hc
        · left; simp [h1, h2, hc]
        · right; simp [h1, h2, hc]
      · right; simp [h, Nat.lt_asymm h]

theorem charsLe_trans (a b c : List Char) (hab : charsLe a b = true)
    (hbc : charsLe b c = true) : charsLe a c = true := by
  induction a generalizing b c with
  | nil => rfl
  | cons x xs ih =>
    cases b with
    | nil => simp [charsLe] at hab
    | cons y ys =>
      cases c with
      | nil => simp [charsLe] at hbc
      | cons z zs =>
        simp only [charsLe] at hab hbc ⊢
        rcases Nat.lt_trichotomy x.toNat y.toNat with hxy | hxy | hxy
        · rcases Nat.lt_trichotomy y.toNat z.toNat with hyz | hyz | hyz
          · have : x.toNat < z.toNat := Nat.lt_trans hxy hyz
            simp [this]
          · have : x.toNat < z.toNat := by omega
            simp [this]
          · simp [Nat.lt_asymm hyz, hyz] at hbc
        · rcases Nat.lt_trichotomy y.toNat z.toNat with hyz | hyz | hyz
          · have : x.toNat < z.toNat := by omega
            simp [this]
          · have hnxy : ¬ x.toNat < y.toNat := by omega
            have hnyx : ¬ y.toNat < x.toNat := by omega
            have hnyz : ¬ y.toNat < z.toNat := by omega
            have hnzy : ¬ z.toNat < y.toNat := by omega
            have hnxz : ¬ x.toNat < z.toNat := by omega
            have hnzx : ¬ z.toNat < x.toNat := by omega
            rw [if_neg hnxy, if_neg hnyx] at hab
            rw [if_neg hnyz, if_neg hnzy] at hbc
            rw [if_neg hnxz, if_neg hnzx]
            exact ih ys zs hab hbc
          · simp [Nat.lt_asymm hyz, hyz] at hbc
        · simp [Nat.lt_asymm hxy, hxy] at hab

instance : IsTotal CfgPath pathLe :=
  ⟨fun p q => charsLe_total p.render.data q.render.data⟩

instance : IsTrans CfgPath pathLe :=
  ⟨fun p q r h1 h2 => charsLe_trans _ _ _ h1 h2⟩

/-- `DirEntry::path()`: the folder joined with the entry's file name. -/
def entryPath (folder : String) (n : CfgName) : CfgPath :=
  { dir := folder, name := n }

/-- Whether a string denotes an absolute path (begins with `/`). -/
def strIsAbs (s : String) : Bool :=
  match s.data with
  | [] => false
  | c :: _ => c == '/'

/-- Whether a path is absolute (its directory part begins with `/`). -/
def isAbsPath (p : CfgPath) : Bool :=
  strIsAbs p.dir

/-- `Path::join`: if the joined path is absolute it replaces the whole
path, otherwise it is appended below the left path. -/
def joinPath (folder : String) (p : CfgPath) : CfgPath :=
  if isAbsPath p then p else { p with dir := folder ++ "/" ++ p.dir }

/-- `get_config_files` (`service.rs` lines 101-112): iterate the folder's
entries (the outcome of `read_dir` is passed in, since folder enumeration
is a collaborator call that can fail), keep those whose extension is
`yml`, push `folder.join(entry.path())` for each, and sort. -/
def get_config_files (folder : String)
    (readDir : Except String (List CfgName)) :
    Except String (List CfgPath) :=
  match readDir with
  | Except.error e => Except.error e
  | Except.ok entries =>
    Except.ok (List.insertionSort pathLe
      ((entries.filter (fun n => n.ext == some "yml")).map
        (fun n => joinPath folder (entryPath folder n))))

/-- `Path::with_extension("applied")` as used by `relocate_file`
(`service.rs` lines 114-124): replace (or add) the file-name extension. -/
def withApplied (p : CfgPath) : CfgPath :=
  { p with name := { p.name with ext := some "applied" } }

/-- The config-folder filesystem: the set of existing files. -/
abbrev SvcFs := List CfgPath

def hasPath (fs : SvcFs) (p : CfgPath) : Bool :=
  fs.any (fun q => q == p)

/-- `std::fs::rename`: if the source exists, remove it and create the
destination; renaming a missing source fails, which `ncl_service` only
logs, so it is modelled as a no-op. -/
def renamePath (fs : SvcFs) (src dst : CfgPath) : SvcFs :=
  if hasPath fs src then dst :: fs.filter (fun q => q != src) else fs

/-- Per-file outcome of one iteration of the apply loop, mirroring the
three logged cases. -/
inductive FileOutcome where
  | openFailed
  | applied
  | applyFailed
deriving DecidableEq, Repr

/-- One iteration of the `ncl_service` apply loop (`service.rs` lines
65-95): try to open the file (failure: log and continue); hand it to the
apply engine (`applyOk` stands for the collaborator); on success relocate
the file to its `.applied` form (a relocation failure is only logged); on
failure leave the file in place. -/
def applyStep (openOk applyOk : CfgPath → Bool) (fs : SvcFs) (p : CfgPath) :
    SvcFs × FileOutcome :=
  if openOk p then
    if applyOk p then (renamePath fs p (withApplied p), FileOutcome.applied)
    else (fs, FileOutcome.applyFailed)
  else (fs, FileOutcome.openFailed)

/-- The full apply loop: every discovered file is attempted in order; the
returned trace records each attempt and its outcome. -/
def applyLoop (openOk applyOk : CfgPath → Bool) :
    SvcFs → List CfgPath → SvcFs × List (CfgPath × FileOutcome)
  | fs, [] => (fs, [])
  | fs, p :: rest =>
    let s := applyStep openOk applyOk fs p
    let r := applyLoop openOk applyOk s.1 rest
    (r.1, (p, s.2) :: r.2)

/-- `ncl_service` after the pinning step (`service.rs` lines 41-97): a
folder-read failure is logged and treated as nothing-to-do; an empty file
list returns immediately; otherwise (after the unmodelled settling delay)
the apply loop runs and the function returns `Ok`. -/
def ncl_service_apply (readDir : Except String (List CfgName))
    (folder : String) (openOk applyOk : CfgPath → Bool) (fs : SvcFs) :
    Except String String × SvcFs × List (CfgPath × FileOutcome) :=
  match get_config_files folder readDir with
  | Except.error _ => (Except.ok "", fs, [])
  | Except.ok files =>
    if files.isEmpty then (Except.ok "", fs, [])
    else
      let r := applyLoop openOk applyOk fs files
      (Except.ok "", r.1, r.2)

/-- `ncl_service` (`service.rs` lines 27-98): if the pin-reference
directory exists, run `pin_iface_name` first — its result is abstracted to
`pinRun`, covering in particular a deserialization failure of the pin file
— and propagate any error with `?`; then discover and apply the queued
config files. -/
def ncl_service (pinDirExists : Bool) (pinRun : Except String Unit)
    (readDir : Except String (List CfgName)) (folder : String)
    (openOk applyOk : CfgPath → Bool) (fs : SvcFs) :
    Except String String × SvcFs × List (CfgPath × FileOutcome) :=
  if pinDirExists then
    match pinRun with
    | Except.error e => (Except.error e, fs, [])
    | Except.ok _ => ncl_service_apply readDir folder openOk applyOk fs
  else ncl_service_apply readDir folder openOk applyOk fs

/-- C6 (counterexample): with the pin-reference directory present, a pin
file that fails to deserialize, and one perfectly appliable queued config
file sitting in the folder, `ncl_service` propagates the error but does
*not* proceed: the service result is the error, the filesystem is
untouched, and no config file is attempted — contradicting the claim that
the invocation still discovers and applies the queued files. -/
theorem C6_counterexample :
    (ncl_service true (Except.error "invalid pin.yml")
        (Except.ok [{ stem := "01-cfg", ext := some "yml" }]) "/etc/nmstate"
        (fun _ => true) (fun _ => true)
        [{ dir := "/etc/nmstate", name := { stem := "01-cfg", ext := some "yml" } }]).1
      = Except.error "invalid pin.yml"
    ∧ ¬ ((ncl_service true (Except.error "invalid pin.yml")
        (Except.ok [{ stem := "01-cfg", ext := some "yml" }]) "/etc/nmstate"
        (fun _ => true) (fun _ => true)
        [{ dir := "/etc/nmstate", name := { stem := "01-cfg", ext := some "yml" } }]).2.2.map
          Prod.fst
      = [{ dir := "/etc/nmstate", name := { stem := "01-cfg", ext := some "yml" } }]) := by
  constructor
  · rfl
  · decide

/-- C6 (amended): when the pin-reference directory exists and the pinning
pass fails (in particular on a malformed pin file), the error is
propagated as the result of the whole service invocation, which aborts:
the queued configuration files are neither discovered nor applied and the
config-folder filesystem is left untouched. -/
theorem C6_pin_error_aborts (e : String)
    (readDir : Except String (List CfgName)) (folder : String)
    (openOk applyOk : CfgPath → Bool) (fs : SvcFs) :
    ncl_service true (Except.error e) readDir folder openOk applyOk fs
      = (Except.error e, fs, []) := rfl

/-- C9 (counterexample): for a *relative* config folder, discovery does
not return the folder's immediate entries: `get_config_files` pushes
`folder.join(entry.path())`, and since `entry.path()` is already the
folder-joined file name, a relative folder gets prepended twice.  With
folder `etc` and the single entry `01-cfg.yml`, the returned path is
`etc/etc/01-cfg.yml`, not the immediate entry `etc/01-cfg.yml`. -/
theorem C9_counterexample :
    get_config_files "etc"
        (Except.ok [{ stem := "01-cfg", ext := some "yml" }])
      = Except.ok
          [{ dir := "etc/etc", name := { stem := "01-cfg", ext := some "yml" } }]
    ∧ ({ dir := "etc/etc", name := { stem := "01-cfg", ext := some "yml" } } : CfgPath)
        ≠ entryPath "etc" { stem := "01-cfg", ext := some "yml" } :=
  ⟨rfl, by decide⟩

/-- C9 (amended): for every config folder given as an *absolute* path
(the deployed default `/etc/nmstate` is absolute; for a relative folder
the redundant join prepends the folder twice), discovery returns exactly
the folder's immediate entries whose extension is `yml`, sorted in
lexicographic path order; and if reading the folder fails, the service
treats it as nothing to do: it returns success, applies nothing and leaves
the filesystem untouched. -/
theorem C9_discovery (folder : String) (hAbs : strIsAbs folder = true) :
    (∀ entries : List CfgName,
      ∃ L, get_config_files folder (Except.ok entries) = Except.ok L
        ∧ L.Perm ((entries.filter (fun n => n.ext == some "yml")).map
            (entryPath folder))
        ∧ List.Sorted pathLe L)
    ∧ (∀ (e : String) (pinDir : Bool) (pinRun : Except String Unit)
        (openOk applyOk : CfgPath → Bool) (fs : SvcFs),
        pinDir = false ∨ pinRun = Except.ok () →
        ncl_service pinDir pinRun (Except.error e) folder openOk applyOk fs
          = (Except.ok "", fs, [])) := by
  have hf : (fun n => joinPath folder (entryPath folder n))
      = entryPath folder := by
    funext n
    simp [joinPath, entryPath, isAbsPath, hAbs]
  constructor
  · intro entries
    refine ⟨List.insertionSort pathLe
        ((entries.filter (fun n => n.ext == some "yml")).map
          (entryPath folder)), ?_, ?_, ?_⟩
    · simp only [get_config_files, hf]
    · exact List.perm_insertionSort _ _
    · exact List.sorted_insertionSort _ _
  · intro e pinDir pinRun openOk applyOk fs h
    have happ :
        ncl_service_apply (Except.error e) folder openOk applyOk fs
          = (Except.ok "", fs, []) := rfl
    rcases h with h | h
    · subst h
      simpa [ncl_service] using happ
    · subst h
      cases pinDirCase : pinDir <;> simpa [ncl_service] using happ

/-- C9 (witness): discovery on the absolute folder `/etc/nmstate` with two
`yml` entries (out of order) and one `txt` entry. -/
theorem C9_discovery_witness :
    strIsAbs "/etc/nmstate" = true
      ∧ (∃ L, get_config_files "/etc/nmstate"
            (Except.ok [{ stem := "02-b", ext := some "yml" },
                        { stem := "01-a", ext := some "yml" },
                        { stem := "readme", ext := some "txt" }])
          = Except.ok L
        ∧ L.Perm ((([{ stem := "02-b", ext := some "yml" },
                     { stem := "01-a", ext := some "yml" },
                     { stem := "readme", ext := some "txt" }] : List CfgName).filter
              (fun n => n.ext == some "yml")).map (entryPath "/etc/nmstate"))
        ∧ List.Sorted pathLe L) :=
  ⟨by decide, (C9_discovery "/etc/nmstate" (by decide)).1 _⟩

/-! ## Lemmas about the apply loop (claim C5) -/

theorem hasPath_iff (fs : SvcFs) (p : CfgPath) :
    hasPath fs p = true ↔ p ∈ fs := by
  simp [hasPath]

theorem mem_renamePath_other (fs : SvcFs) (src dst q : CfgPath)
    (h1 : q ≠ src) (h2 : q ≠ dst) :
    q ∈ renamePath fs src dst ↔ q ∈ fs := by
  unfold renamePath
  split
  · simp only [List.mem_cons, List.mem_filter, bne_iff_ne]
    constructor
    · rintro (h | ⟨h, _⟩)
      · exact absurd h h2
      · exact h
    · intro h
      exact Or.inr ⟨h, h1⟩
  · exact Iff.rfl

theorem mem_renamePath_dst (fs : SvcFs) (src dst : CfgPath)
    (h : src ∈ fs) : dst ∈ renamePath fs src dst := by
  unfold renamePath
  rw [if_pos ((hasPath_iff fs src).mpr h)]
  exact List.mem_cons_self _ _

theorem not_mem_renamePath_src (fs : SvcFs) (src dst : CfgPath)
    (hne : dst ≠ src) : src ∉ renamePath fs src dst := by
  unfold renamePath
  split
  · intro hm
    rcases List.mem_cons.mp hm with h | h
    · exact hne h.symm
    · have := (List.mem_filter.mp h).2
      simp [bne_iff_ne] at this
  · intro hm
    rename_i hfalse
    rw [hasPath_iff] at hfalse
    exact hfalse hm

theorem applyStep_fs (openOk applyOk : CfgPath → Bool) (fs : SvcFs)
    (p : CfgPath) :
    (applyStep openOk applyOk fs p).1
      = if (openOk p && applyOk p) = true
        then renamePath fs p (withApplied p) else fs := by
  unfold applyStep
  cases openOk p <;> cases applyOk p <;> simp

theorem withApplied_ne_yml (p q : CfgPath) (h : q.name.ext = some "yml") :
    withApplied p ≠ q := by
  intro he
  rw [← he] at h
  simp only [withApplied, Option.some.injEq] at h
  exact absurd h (by decide)

theorem withApplied_inj_on_yml (p r : CfgPath)
    (hp : p.name.ext = some "yml") (hr : r.name.ext = some "yml")
    (h : withApplied p = withApplied r) : p = r := by
  obtain ⟨pd, ps, pe⟩ := p
  obtain ⟨rd, rs, re⟩ := r
  simp only [withApplied, CfgPath.mk.injEq, CfgName.mk.injEq] at h
  simp only at hp hr
  subst hp hr
  simp [CfgPath.mk.injEq, CfgName.mk.injEq, h.1, h.2.1]

theorem applyLoop_trace (openOk applyOk : CfgPath → Bool)
    (files : List CfgPath) (fs : SvcFs) :
    (applyLoop openOk applyOk fs files).2.map Prod.fst = files := by
  induction files generalizing fs with
  | nil => rfl
  | cons p rest ih =>
    simp only [applyLoop, List.map_cons]
    rw [ih]

theorem applyLoop_preserves (openOk applyOk : CfgPath → Bool)
    (files : List CfgPath) (fs : SvcFs) (q : CfgPath)
    (h : ∀ p ∈ files, p ≠ q ∧ withApplied p ≠ q) :
    q ∈ (applyLoop openOk applyOk fs files).1 ↔ q ∈ fs := by
  induction files generalizing fs with
  | nil => exact Iff.rfl
  | cons p rest ih =>
    have hp := h p (List.mem_cons_self _ _)
    simp only [applyLoop]
    rw [ih _ (fun r hr => h r (List.mem_cons_of_mem _ hr))]
    rw [applyStep_fs]
    split
    · exact mem_renamePath_other _ _ _ _ (Ne.symm hp.1) (Ne.symm hp.2)
    · exact Iff.rfl

theorem applyLoop_effect (openOk applyOk : CfgPath → Bool)
    (files : List CfgPath) :
    ∀ fs : SvcFs, files.Nodup →
    (∀ p ∈ files, p.name.ext = some "yml") →
    (∀ p ∈ files, p ∈ fs) →
    (∀ p ∈ files, withApplied p ∉ fs) →
    ∀ q ∈ files,
      ((openOk q && applyOk q) = true →
        withApplied q ∈ (applyLoop openOk applyOk fs files).1
          ∧ q ∉ (applyLoop openOk applyOk fs files).1)
      ∧ ((openOk q && applyOk q) = false →
        q ∈ (applyLoop openOk applyOk fs files).1
          ∧ withApplied q ∉ (applyLoop openOk applyOk fs files).1) := by
  induction files with
  | nil => intro fs _ _ _ _ q hq; cases hq
  | cons p rest ih =>
    intro fs hnd hyml hmem hfresh q hq
    have hndr := (List.nodup_cons.mp hnd).2
    have hpnr := (List.nodup_cons.mp hnd).1
    have hymlp := hyml p (List.mem_cons_self _ _)
    have hymlr : ∀ r ∈ rest, r.name.ext = some "yml" :=
      fun r hr => hyml r (List.mem_cons_of_mem _ hr)
    -- the filesystem after the head step
    set fs1 := (applyStep openOk applyOk fs p).1 with hfs1
    have hfs1eq : fs1 = if (openOk p && applyOk p) = true
        then renamePath fs p (withApplied p) else fs := applyStep_fs _ _ _ _
    -- the head step touches only `p` and `withApplied p`
    have hkeep : ∀ x : CfgPath, x ≠ p → x ≠ withApplied p →
        (x ∈ fs1 ↔ x ∈ fs) := by
      intro x hx1 hx2
      rw [hfs1eq]
      split
      · exact mem_renamePath_other _ _ _ _ hx1 hx2
      · exact Iff.rfl
    have hmemr : ∀ r ∈ rest, r ∈ fs1 := by
      intro r hr
      have h1 : r ≠ p := by
        intro he; exact hpnr (he ▸ hr)
      have h2 : r ≠ withApplied p :=
        Ne.symm (withApplied_ne_yml p r (hymlr r hr))
      exact (hkeep r h1 h2).mpr (hmem r (List.mem_cons_of_mem _ hr))
    have hfreshr : ∀ r ∈ rest, withApplied r ∉ fs1 := by
      intro r hr
      have h1 : withApplied r ≠ p := withApplied_ne_yml r p hymlp
      have h2 : withApplied r ≠ withApplied p := by
        intro he
        have : r = p := withApplied_inj_on_yml r p (hymlr r hr) hymlp he
        exact hpnr (this ▸ hr)
      rw [hkeep _ h1 h2]
      exact hfresh r (List.mem_cons_of_mem _ hr)
    have hloop : (applyLoop openOk applyOk fs (p :: rest)).1
        = (applyLoop openOk applyOk fs1 rest).1 := by
      simp only [applyLoop]
    have hpresP : p ∈ (applyLoop openOk applyOk fs1 rest).1 ↔ p ∈ fs1 :=
      applyLoop_preserves openOk applyOk rest fs1 p
        (fun r hr => ⟨fun he => hpnr (he ▸ hr),
                      withApplied_ne_yml r p hymlp⟩)
    have hpresA : withApplied p ∈ (applyLoop openOk applyOk fs1 rest).1
        ↔ withApplied p ∈ fs1 :=
      applyLoop_preserves openOk applyOk rest fs1 (withApplied p)
        (fun r hr => ⟨Ne.symm (withApplied_ne_yml p r (hymlr r hr)),
                      fun he => hpnr
                        ((withApplied_inj_on_yml r p (hymlr r hr) hymlp he)
                          ▸ hr)⟩)
    rcases List.mem_cons.mp hq with hqp | hqr
    · subst hqp
      constructor
      · intro hsucc
        have hfs1' : fs1 = renamePath fs q (withApplied q) := by
          rw [hfs1eq, if_pos hsucc]
        constructor
        · rw [hloop, hpresA, hfs1']
          exact mem_renamePath_dst fs q (withApplied q)
            (hmem q (List.mem_cons_self _ _))
        · rw [hloop, hpresP, hfs1']
          exact not_mem_renamePath_src fs q (withApplied q)
            (withApplied_ne_yml q q hymlp)
      · intro hfail
        have hfs1' : fs1 = fs := by
          rw [hfs1eq, if_neg (by simp [hfail])]
        constructor
        · rw [hloop, hpresP, hfs1']
          exact hmem q (List.mem_cons_self _ _)
        · rw [hloop, hpresA, hfs1']
          exact hfresh q (List.mem_cons_self _ _)
    · have hres := ih fs1 hndr hymlr hmemr hfreshr q hqr
      rw [hloop]
      exact hres

theorem ncl_service_result_ok (pinDirExists : Bool)
    (pinRun : Except String Unit) (readDir : Except String (List CfgName))
    (folder : String) (openOk applyOk : CfgPath → Bool) (fs : SvcFs)
    (h : pinDirExists = false ∨ pinRun = Except.ok ()) :
    (ncl_service pinDirExists pinRun readDir folder openOk applyOk fs).1
      = Except.ok "" := by
  have happ : (ncl_service_apply readDir folder openOk applyOk fs).1
      = Except.ok "" := by
    unfold ncl_service_apply
    cases get_config_files folder readDir with
    | error e => rfl
    | ok files =>
      by_cases he : files.isEmpty <;> simp [he]
  rcases h with h | h
  · subst h
    simpa [ncl_service] using happ
  · subst h
    cases pinDirExists <;> simpa [ncl_service] using happ

/-- C5: for every list of discovered config files (pairwise distinct
existing `yml` files whose `.applied` forms do not exist yet) and every
behaviour of the open and apply collaborators, the scheduler attempts
every file in order without aborting; afterwards exactly the successfully
applied files have been relocated to their `.applied` form (the original
gone, the `.applied` file present) while every file whose open or apply
failed is still in place un-renamed with no `.applied` form; and the
service's own result is success regardless of per-file failures. -/
theorem C5_batch_resilience (openOk applyOk : CfgPath → Bool) (fs : SvcFs)
    (files : List CfgPath)
    (hnd : files.Nodup)
    (hyml : ∀ p ∈ files, p.name.ext = some "yml")
    (hmem : ∀ p ∈ files, p ∈ fs)
    (hfresh : ∀ p ∈ files, withApplied p ∉ fs) :
    (applyLoop openOk applyOk fs files).2.map Prod.fst = files
    ∧ (∀ p ∈ files, (openOk p && applyOk p) = true →
        withApplied p ∈ (applyLoop openOk applyOk fs files).1
          ∧ p ∉ (applyLoop openOk applyOk fs files).1)
    ∧ (∀ p ∈ files, (openOk p && applyOk p) = false →
        p ∈ (applyLoop openOk applyOk fs files).1
          ∧ withApplied p ∉ (applyLoop openOk applyOk fs files).1)
    ∧ (∀ (pinDirExists : Bool) (pinRun : Except String Unit)
        (readDir : Except String (List CfgName)) (folder : String),
        pinDirExists = false ∨ pinRun = Except.ok () →
        (ncl_service pinDirExists pinRun readDir folder openOk applyOk
            fs).1 = Except.ok "") := by
  refine ⟨applyLoop_trace openOk applyOk files fs, ?_, ?_, ?_⟩
  · intro p hp hsucc
    exact (applyLoop_effect openOk applyOk files fs hnd hyml hmem hfresh
      p hp).1 hsucc
  · intro p hp hfail
    exact (applyLoop_effect openOk applyOk files fs hnd hyml hmem hfresh
      p hp).2 hfail
  · intro pinDirExists pinRun readDir folder h
    exact ncl_service_result_ok pinDirExists pinRun readDir folder openOk
      applyOk fs h

/-- The spec's three-file scenario: three queued config files. -/
def fEx1 : CfgPath :=
  { dir := "/etc/nmstate", name := { stem := "01-a", ext := some "yml" } }

def fEx2 : CfgPath :=
  { dir := "/etc/nmstate", name := { stem := "02-b", ext := some "yml" } }

def fEx3 : CfgPath :=
  { dir := "/etc/nmstate", name := { stem := "03-c", ext := some "yml" } }

def filesEx : List CfgPath := [fEx1, fEx2, fEx3]

/-- An apply collaborator that fails exactly on the second file. -/
def applyOkEx (p : CfgPath) : Bool :=
  p.name.stem != "02-b"

/-- C5 (witness): the batch-resilience theorem applied to the spec's
concrete scenario — three files, the second of which fails to apply: every
file is attempted in order, the first file is relocated while the second
stays in place. -/
theorem C5_batch_resilience_witness :
    filesEx.Nodup
      ∧ (applyLoop (fun _ => true) applyOkEx filesEx filesEx).2.map
          Prod.fst = filesEx
      ∧ withApplied fEx1
          ∈ (applyLoop (fun _ => true) applyOkEx filesEx filesEx).1
      ∧ fEx2 ∈ (applyLoop (fun _ => true) applyOkEx filesEx filesEx).1 :=
  ⟨by decide,
   (C5_batch_resilience (fun _ => true) applyOkEx filesEx filesEx
      (by decide) (by decide) (by decide) (by decide)).1,
   ((C5_batch_resilience (fun _ => true) applyOkEx filesEx filesEx
      (by decide) (by decide) (by decide) (by decide)).2.1 fEx1
      (by decide) (by decide)).1,
   ((C5_batch_resilience (fun _ => true) applyOkEx filesEx filesEx
      (by decide) (by decide) (by decide) (by decide)).2.2.1 fEx2
      (by decide) (by decide)).1⟩

/-! ## Route merge model (`store_route_config`, `route.rs`)

`MergedNetworkState` is flattened to the fields `store_route_config`
reads: `routes` (the merged route table: its changed flag, the list of
interface names whose routes changed, and the per-interface index of
changed routes) and `interfaces.kernel_ifaces` (a map from interface name
to the per-interface merge record, modelled as an association list).
Route entries and the already-merged IPv4/IPv6 configurations are opaque
payloads, modelled as strings.  `is_changed()`/`mark_as_changed()` on the
merged interface are modelled as a boolean flag (their definitions live in
the nmstate library outside the sources; per the spec the flag records
that the interface needs re-applying). -/

abbrev RouteEntry := String

structure BaseIface where
  ipv4 : Option String
  ipv6 : Option String
  routes : Option (List RouteEntry)
deriving DecidableEq, Repr

structure MergedIface where
  merged : BaseIface
  for_apply : Option BaseIface
  changed : Bool
deriving DecidableEq, Repr

structure MergedRoutes where
  changed : Bool
  route_changed_ifaces : List String
  indexed : List (String × List RouteEntry)
deriving DecidableEq, Repr

structure MergedNetworkState where
  routes : MergedRoutes
  kernel_ifaces : List (String × MergedIface)
deriving DecidableEq, Repr

/-- The per-interface mutation of the `store_route_config` loop body
(`route.rs` lines 21-30): mark the interface changed if it is not yet;
then, if an apply-projection exists, copy the merged IPv4 and IPv6
configurations across and set its route list to the looked-up routes. -/
def routeApply (rts : List RouteEntry) (i : MergedIface) : MergedIface :=
  let i1 := if !i.changed then { i with changed := true } else i
  match i1.for_apply with
  | some a =>
    { i1 with for_apply := some { a with ipv4 := i1.merged.ipv4,
                                         ipv6 := i1.merged.ipv6,
                                         routes := some rts } }
  | none => i1

/-- `HashMap::get` on the kernel-interface map: look up the value stored
at a name. -/
def lookupIface (m : List (String × MergedIface)) (n : String) :
    Option MergedIface :=
  match m with
  | [] => none
  | e :: rest => if e.1 = n then some e.2 else lookupIface rest n

/-- `kernel_ifaces.get_mut(iface_name)` followed by an in-place mutation:
rewrite the value at the matching key, leaving the map unchanged when the
key is absent. -/
def updateKernelIfaces (m : List (String × MergedIface)) (name : String)
    (f : MergedIface → MergedIface) : List (String × MergedIface) :=
  m.map (fun e => if e.1 = name then (e.1, f e.2) else e)

/-- `store_route_config` (`route.rs` lines 5-35): a no-op unless the
global routes-changed flag is set; otherwise, for each name in
`route_changed_ifaces`, look up its changed routes (treating an absent
entry as the empty list — "routes cleared") and update the corresponding
kernel interface if present.  The function always returns `Ok(())`, so
only the state transformation is modelled. -/
def store_route_config (s : MergedNetworkState) : MergedNetworkState :=
  if s.routes.changed then
    { s with
      kernel_ifaces :=
        s.routes.route_changed_ifaces.foldl
          (fun m name =>
            updateKernelIfaces m name
              (routeApply ((List.lookup name s.routes.indexed).getD [])))
          s.kernel_ifaces }
  else s

theorem lookupIface_update (m : List (String × MergedIface))
    (name : String) (f : MergedIface → MergedIface) (n : String) :
    lookupIface (updateKernelIfaces m name f) n
      = if n = name then (lookupIface m n).map f else lookupIface m n := by
  induction m with
  | nil =>
    simp only [updateKernelIfaces, List.map_nil, lookupIface]
    split <;> rfl
  | cons e rest ih =>
    obtain ⟨k, v⟩ := e
    simp only [updateKernelIfaces, List.map_cons] at ih ⊢
    by_cases hk : k = name
    · subst hk
      by_cases hn : n = k
      · subst hn
        simp [lookupIface]
      · have hn' : ¬ n = k := hn
        simp [lookupIface, Ne.symm hn', hn', ih]
    · by_cases hn : n = k
      · subst hn
        simp [lookupIface, hk, Ne.symm hk]
      · have hkn : ¬ k = n := fun he => hn he.symm
        simp [lookupIface, hk, hkn, ih]

theorem lookupIface_routeFold_not_mem
    (g : String → MergedIface → MergedIface) (names : List String)
    (m : List (String × MergedIface)) (n : String) (h : n ∉ names) :
    lookupIface
        (names.foldl (fun acc name => updateKernelIfaces acc name (g name))
          m) n
      = lookupIface m n := by
  induction names generalizing m with
  | nil => rfl
  | cons name rest ih =>
    have hne : n ≠ name := fun he => h (he ▸ List.mem_cons_self _ _)
    have hrest : n ∉ rest := fun hr => h (List.mem_cons_of_mem _ hr)
    rw [List.foldl_cons, ih _ hrest, lookupIface_update, if_neg hne]

theorem keys_updateKernelIfaces (m : List (String × MergedIface))
    (name : String) (f : MergedIface → MergedIface) :
    (updateKernelIfaces m name f).map Prod.fst = m.map Prod.fst := by
  induction m with
  | nil => rfl
  | cons e rest ih =>
    simp only [updateKernelIfaces, List.map_cons] at ih ⊢
    by_cases hk : e.1 = name
    · simp [hk, ih]
    · simp [hk, ih]

theorem keys_routeFold (g : String → MergedIface → MergedIface)
    (names : List String) (m : List (String × MergedIface)) :
    (names.foldl (fun acc name => updateKernelIfaces acc name (g name))
        m).map Prod.fst
      = m.map Prod.fst := by
  induction names generalizing m with
  | nil => rfl
  | cons name rest ih =>
    rw [List.foldl_cons, ih, keys_updateKernelIfaces]

theorem lookupIface_none_routeFold
    (g : String → MergedIface → MergedIface) (names : List String)
    (m : List (String × MergedIface)) (n : String)
    (h : lookupIface m n = none) :
    lookupIface
        (names.foldl (fun acc name => updateKernelIfaces acc name (g name))
          m) n
      = none := by
  induction names generalizing m with
  | nil => exact h
  | cons name rest ih =>
    rw [List.foldl_cons]
    apply ih
    rw [lookupIface_update]
    split
    · rw [h]; rfl
    · exact h

theorem routeApply_of_none (rts : List RouteEntry) (i : MergedIface)
    (h : i.for_apply = none) :
    routeApply rts i = { i with changed := true } := by
  obtain ⟨mrg, fa, ch⟩ := i
  obtain rfl : fa = none := h
  cases ch <;> rfl

theorem lookupIface_routeFold_none_apply (g : String → List RouteEntry)
    (names : List String) :
    ∀ (m : List (String × MergedIface)) (n : String) (i : MergedIface),
      lookupIface m n = some i → i.for_apply = none →
      lookupIface
          (names.foldl (fun acc name =>
            updateKernelIfaces acc name (routeApply (g name))) m) n
        = some (if n ∈ names then { i with changed := true } else i) := by
  induction names with
  | nil =>
    intro m n i h hf
    rw [List.foldl_nil, if_neg (by simp)]
    exact h
  | cons name rest ih =>
    intro m n i h hf
    rw [List.foldl_cons]
    by_cases hn : n = name
    · subst hn
      have h1 : lookupIface (updateKernelIfaces m n (routeApply (g n))) n
          = some { i with changed := true } := by
        rw [lookupIface_update, if_pos rfl, h]
        simp [routeApply_of_none _ _ hf]
      have h2 := ih _ _ _ h1
        (show ({ i with changed := true } : MergedIface).for_apply = none
          from hf)
      rw [h2, if_pos (List.mem_cons_self _ _)]
      split <;> rfl
    · have h1 : lookupIface (updateKernelIfaces m name (routeApply (g name)))
          n = some i := by
        rw [lookupIface_update, if_neg hn]
        exact h
      have h2 := ih _ _ _ h1 hf
      rw [h2]
      have hmemiff : n ∈ name :: rest ↔ n ∈ rest := by
        simp [List.mem_cons, hn]
      by_cases hmem : n ∈ rest
      · rw [if_pos hmem, if_pos (hmemiff.mpr hmem)]
      · rw [if_neg hmem, if_neg (fun hc => hmem (hmemiff.mp hc))]

/-- C7: the route-merge step mutates nothing when the global
routes-changed flag is unset; and when it is set, every interface of the
merged state whose name is not in the route-changed set keeps its whole
merge record — in particular its apply-projection and its changed flag —
exactly unchanged. -/
theorem C7_route_merge_frame (s : MergedNetworkState) :
    (s.routes.changed = false → store_route_config s = s)
    ∧ (∀ n : String, n ∉ s.routes.route_changed_ifaces →
        lookupIface (store_route_config s).kernel_ifaces n
          = lookupIface s.kernel_ifaces n) := by
  constructor
  · intro h
    simp [store_route_config, h]
  · intro n hn
    by_cases hc : s.routes.changed = true
    · simp only [store_route_config, hc, if_true]
      exact lookupIface_routeFold_not_mem _ _ _ _ hn
    · have hc' : s.routes.changed = false := by
        simpa using hc
      simp [store_route_config, hc']

def biEx : BaseIface :=
  { ipv4 := some "ipv4cfg", ipv6 := some "ipv6cfg", routes := none }

def mergedIfaceEx : MergedIface :=
  { merged := biEx
    for_apply := some { ipv4 := none, ipv6 := none, routes := none }
    changed := false }

/-- A merged state whose route-changed set mentions only `eth0`, with
`eth1` present in the same merge set. -/
def sEx : MergedNetworkState :=
  { routes := { changed := true
                route_changed_ifaces := ["eth0"]
                indexed := [("eth0", ["route-a"])] }
    kernel_ifaces := [("eth0", mergedIfaceEx), ("eth1", mergedIfaceEx)] }

/-- C7 (witness): the frame theorem evaluated on the concrete merge set
flagged "routes changed" for `eth0` only: the unrelated `eth1` record is
untouched. -/
theorem C7_route_merge_frame_witness :
    "eth1" ∉ sEx.routes.route_changed_ifaces
      ∧ lookupIface (store_route_config sEx).kernel_ifaces "eth1"
          = lookupIface sEx.kernel_ifaces "eth1" :=
  ⟨by decide, (C7_route_merge_frame sEx).2 "eth1" (by decide)⟩

/-- C8: the route-merge step never introduces a new interface into the
merged state — the name sequence of the kernel-interface map is unchanged
— and a name absent from the merged state (such as a route-changed name
outside the apply scope, which the loop skips) is still absent
afterwards. -/
theorem C8_no_new_ifaces (s : MergedNetworkState) :
    (store_route_config s).kernel_ifaces.map Prod.fst
        = s.kernel_ifaces.map Prod.fst
    ∧ (∀ n : String, lookupIface s.kernel_ifaces n = none →
        lookupIface (store_route_config s).kernel_ifaces n = none) := by
  constructor
  · by_cases hc : s.routes.changed = true
    · simp only [store_route_config, hc, if_true]
      exact keys_routeFold _ _ _
    · have hc' : s.routes.changed = false := by
        simpa using hc
      simp [store_route_config, hc']
  · intro n h
    by_cases hc : s.routes.changed = true
    · simp only [store_route_config, hc, if_true]
      exact lookupIface_none_routeFold _ _ _ _ h
    · have hc' : s.routes.changed = false := by
        simpa using hc
      simpa [store_route_config, hc'] using h

/-- C8 (witness): the invariant evaluated on the concrete state `sEx`,
with the absent name `eth9` (also absent from the result). -/
theorem C8_no_new_ifaces_witness :
    lookupIface sEx.kernel_ifaces "eth9" = none
      ∧ lookupIface (store_route_config sEx).kernel_ifaces "eth9" = none :=
  ⟨by decide, (C8_no_new_ifaces sEx).2 "eth9" (by decide)⟩

/-- C10: for a name in the route-changed set whose kernel interface exists
in the merged state but carries no apply-projection, the route-merge step
marks the interface changed, yet creates no apply-projection — the record
is otherwise untouched and its `for_apply` stays `none`, so the looked-up
route list (including the routes-cleared empty case) is recorded
nowhere. -/
theorem C10_route_change_no_projection (s : MergedNetworkState)
    (n : String) (i : MergedIface)
    (hch : s.routes.changed = true)
    (hmem : n ∈ s.routes.route_changed_ifaces)
    (hlk : lookupIface s.kernel_ifaces n = some i)
    (hap : i.for_apply = none) :
    lookupIface (store_route_config s).kernel_ifaces n
        = some { i with changed := true }
    ∧ ({ i with changed := true } : MergedIface).for_apply = none := by
  constructor
  · simp only [store_route_config, hch, if_true]
    have h := lookupIface_routeFold_none_apply
      (fun name => (List.lookup name s.routes.indexed).getD [])
      s.routes.route_changed_ifaces s.kernel_ifaces n i hlk hap
    rw [h, if_pos hmem]
  · exact hap

/-- A merged state in which `eth0` has changed routes but its merge record
has no apply-projection. -/
def sExNoApply : MergedNetworkState :=
  { routes := { changed := true
                route_changed_ifaces := ["eth0"]
                indexed := [("eth0", ["route-a"])] }
    kernel_ifaces :=
      [("eth0", { merged := biEx, for_apply := none, changed := false })] }

/-- C10 (witness): the dropped-route theorem evaluated on the concrete
state `sExNoApply`. -/
theorem C10_route_change_no_projection_witness :
    "eth0" ∈ sExNoApply.routes.route_changed_ifaces
      ∧ lookupIface (store_route_config sExNoApply).kernel_ifaces "eth0"
          = some { merged := biEx, for_apply := none, changed := true } :=
  ⟨by decide,
   (C10_route_change_no_projection sExNoApply "eth0"
      { merged := biEx, for_apply := none, changed := false }
      (by decide) (by decide) (by decide) (by decide)).1⟩
